import Mathlib

/-!
Verification of the laitos command-dispatch core against its specification.

The Go sources are shallowly embedded: strings are `List Char` (byte strings of
the DNS/relay wire format are `List Nat`), Go maps keyed by strings are
association lists, interface values are either inductive variants carrying the
struct fields that the embedded code inspects, or plain Lean functions when the
code only ever calls the single interface method.  Wall-clock time
(`time.Now().Unix()`) is passed in as an explicit `now : Int` argument.
-/

namespace Laitos

/-! ## String and association-list utilities (Go `strings`, `map[string]T`) -/

/-- Characters removed by Go `strings.TrimSpace` (`unicode.IsSpace`):
`\t \n \v \f \r`, space, NEL (U+0085) and NBSP (U+00A0). -/
def isSpaceChar (c : Char) : Bool :=
  c.toNat = 9 ∨ c.toNat = 10 ∨ c.toNat = 11 ∨ c.toNat = 12 ∨ c.toNat = 13 ∨
  c.toNat = 32 ∨ c.toNat = 133 ∨ c.toNat = 160

/-- Drop trailing characters satisfying `p` (helper for `trimSpace`). -/
def dropTrail (p : Char → Bool) (s : List Char) : List Char :=
  ((s.reverse).dropWhile p).reverse

/-- Go `strings.TrimSpace`. -/
def trimSpace (s : List Char) : List Char :=
  dropTrail isSpaceChar (s.dropWhile isSpaceChar)

/-- Go `strings.HasPrefix s pre` (second argument is the would-be lead of the
first). -/
def startsWithL : List Char → List Char → Bool
  | _, [] => true
  | [], _ :: _ => false
  | a :: as, b :: bs => a = b && startsWithL as bs

/-- Association-list lookup, modelling Go `m[k]` on a `map[string]T`. -/
def alookup {α β : Type} [DecidableEq α] : List (α × β) → α → Option β
  | [], _ => none
  | (k, v) :: rest, a => if k = a then some v else alookup rest a

/-- Association-list update, modelling Go `m[k] = v` when `k` is already
present. -/
def aupdate {α β : Type} [DecidableEq α] : List (α × β) → α → β → List (α × β)
  | [], _, _ => []
  | (k, v) :: rest, a, b => if k = a then (k, b) :: rest else (k, v) :: aupdate rest a b

/-! ## misc.RateLimit (fixed-window rate limiter) -/

/-- State of `misc.RateLimit`: the configuration, the window timestamp, the
per-actor counter map and the per-window set of actors already logged. -/
structure RateLimit where
  unitSecs : Int
  maxCount : Nat
  lastTimestamp : Int
  counter : List (List Char × Nat)
  logged : List (List Char)
deriving DecidableEq

/-- The window-reset step at the top of `misc.RateLimit.Add`: when
`now - lastTimestamp >= UnitSecs`, re-initialise the counter map and the
logged set and move `lastTimestamp` to `now`. -/
def resetIfDue (limit : RateLimit) (now : Int) : RateLimit :=
  if limit.unitSecs ≤ now - limit.lastTimestamp then
    { limit with counter := [], logged := [], lastTimestamp := now }
  else limit

/-- `misc.RateLimit.Add`: reset every counter when the unit of time has passed
(`now - lastTimestamp >= UnitSecs`), then admit the actor unless its counter
has already reached `MaxCount`; an admitted actor's counter is incremented, a
refused actor is at most remembered in the `logged` set.  Returns the admission
verdict and the post state. -/
def RateLimit.Add (limit : RateLimit) (actor : List Char) (logIfLimitHit : Bool)
    (now : Int) : Bool × RateLimit :=
  let limit := resetIfDue limit now
  match alookup limit.counter actor with
  | some count =>
    if limit.maxCount ≤ count then
      (false,
        if logIfLimitHit ∧ actor ∉ limit.logged then
          { limit with logged := actor :: limit.logged }
        else limit)
    else
      (true, { limit with counter := aupdate limit.counter actor (count + 1) })
  | none => (true, { limit with counter := (actor, 1) :: limit.counter })

/-- The counter value recorded for an actor (0 when the actor is absent). -/
def RateLimit.countOf (limit : RateLimit) (actor : List Char) : Nat :=
  (alookup limit.counter actor).getD 0

/-- Number of `Add` calls in `calls` (each a triple of actor, logIfLimitHit
flag and `now` timestamp, run in order from state `s`) that return `true` for
the given actor. -/
def admittedCount (s : RateLimit) (actor : List Char) :
    List (List Char × Bool × Int) → Nat
  | [] => 0
  | (a, lg, t) :: rest =>
    let step := RateLimit.Add s a lg t
    (if step.1 ∧ a = actor then 1 else 0) + admittedCount step.2 actor rest

/-- Modelled from the claim's words (spec 4.1 as read by C3): after the window
reset, `counter[actor]` is incremented unconditionally and the call is admitted
iff the incremented value is at most `MaxCount`.  Written only to compare the
claim with the source `RateLimit.Add`. -/
def rateLimitAddClaim (limit : RateLimit) (actor : List Char) (now : Int) :
    Bool × RateLimit :=
  let limit := resetIfDue limit now
  let newVal := (alookup limit.counter actor).getD 0 + 1
  let counter :=
    match alookup limit.counter actor with
    | some c => aupdate limit.counter actor (c + 1)
    | none => (actor, 1) :: limit.counter
  (decide (newVal ≤ limit.maxCount), { limit with counter := counter })

/-! ## dnsd (DNS forwarder: name extraction and black-hole answer) -/

/-- `dnsd.MinNameQuerySize`: a shorter packet cannot possibly be a name query. -/
def MinNameQuerySize : Nat := 14

/-- Go `bytes.Index hay needle` (arguments flipped): index of the first
occurrence of `needle` inside `hay`, `none` standing for Go's -1. -/
def bytesIndex (needle : List Nat) : List Nat → Option Nat
  | [] => if needle.isPrefixOf [] then some 0 else none
  | h :: t =>
    if needle.isPrefixOf (h :: t) then some 0
    else (bytesIndex needle t).map (fun n => n + 1)

/-- The byte normalisation inside `dnsd.ExtractDomainName`: byte values in
[0,44], [58,64] and [91,96] are replaced by a full stop (46). -/
def normByte (b : Nat) : Nat :=
  if b ≤ 44 ∨ (58 ≤ b ∧ b ≤ 64) ∨ (91 ≤ b ∧ b ≤ 96) then 46 else b

/-- The trailing loop of `dnsd.ExtractDomainName`, with an explicit fuel
argument as termination device (each pass sheds at least two bytes, so a fuel
of the name's length always suffices): repeatedly strip the name through its
first full stop, stopping when the first full stop sits at position 0 or at
the very end (or when there is none), collecting each remainder. -/
def suffixLoopF : Nat → List Nat → List (List Nat)
  | 0, _ => []
  | fuel + 1, name =>
    match List.findIdx? (fun b => b = 46) name with
    | none => []
    | some i =>
      if i < 1 ∨ i = name.length - 1 then []
      else name.drop (i + 1) :: suffixLoopF fuel (name.drop (i + 1))

/-- The trailing loop of `dnsd.ExtractDomainName` (fuel instantiated). -/
def suffixLoop (name : List Nat) : List (List Nat) :=
  suffixLoopF name.length name

/-- `dnsd.ExtractDomainName`: find the first Type-A Class-IN trailer
(`0x00 0x01 0x00 0x01`) from byte 13 on, normalise the bytes before it
(discarding the one byte right before the trailer), refuse names longer than
1024, and return the name followed by its progressively stripped tails. -/
def ExtractDomainName (packet : List Nat) : List (List Nat) :=
  if packet.length < MinNameQuerySize then []
  else
    match bytesIndex [0, 1, 0, 1] (packet.drop 13) with
    | none => []
    | some idx =>
      if idx < 1 then []
      else
        let domainName := ((packet.drop 13).take (idx - 1)).map normByte
        if 1024 < domainName.length then []
        else domainName :: suffixLoop domainName

/-- `dnsd.StandardResponseNoError` (flags 0x8180). -/
def StandardResponseNoError : List Nat := [129, 128]

/-- `dnsd.BlackHoleAnswer`: canned A-record answer, 0.0.0.0 with TTL 0x05BA. -/
def BlackHoleAnswer : List Nat := [192, 12, 0, 1, 0, 1, 0, 0, 5, 186, 0, 4, 0, 0, 0, 0]

/-- `dnsd.RespondWith0`.  The Go code allocates `len(query)+16` bytes, copies
the transaction ID (`answer[0..1] = query[0..1]`), writes the flags 0x8180 at
bytes 2..3, copies `query[4:]` into `answer[4:]`, then forces ANCOUNT to 1
(`answer[6] = 0; answer[7] = 1`) and writes `BlackHoleAnswer` over the last 16
bytes; all of which is this append of slices. -/
def RespondWith0 (queryNoLength : List Nat) : List Nat :=
  if queryNoLength.length < MinNameQuerySize then []
  else
    queryNoLength.take 2 ++ StandardResponseNoError ++
      (((queryNoLength.drop 4).set 2 0).set 3 1) ++ BlackHoleAnswer

/-- `dnsd.Daemon.NamesAreBlackListed`: true when any of the names is in the
black list (set membership becomes list membership). -/
def NamesAreBlackListed (blackList : List (List Nat)) (names : List (List Nat)) : Bool :=
  names.any (fun name => blackList.contains name)

/-- Spec-side description of the C7 suffix list ("every strict tail obtained by
removing leading components up to each '.'"): the tail after every full stop of
the name, in the order of the full stops. -/
def dotTails : List Nat → List (List Nat)
  | [] => []
  | b :: rest => if b = 46 then rest :: dotTails rest else dotTails rest

/-- All dot-separated components of the name are nonempty: every full stop
sits at a position that is neither 0 nor last, and is not immediately followed
by another full stop. -/
def NoEmptyComponent (name : List Nat) : Prop :=
  ∀ i, i < name.length → name[i]? = some 46 →
    1 ≤ i ∧ i + 1 < name.length ∧ name[i + 1]? ≠ some 46

instance decNoEmptyComponent (name : List Nat) : Decidable (NoEmptyComponent name) :=
  inferInstanceAs (Decidable (∀ i, i < name.length → name[i]? = some 46 →
    1 ≤ i ∧ i + 1 < name.length ∧ name[i + 1]? ≠ some 46))

/-! ## sockd (encrypted UDP relay) -/

/-- `sockd.MaxPacketSize`: size of every receive buffer of the UDP relay
(spec 6: UDP packets are bounded at 9038 bytes). -/
def MaxPacketSize : Nat := 9038

/-- Modelled from the spec: the sockd source file defining the address-header
constants (`AddressTypeIndex`, `AddressTypeMask`, the three address types and
the per-type packet lengths) is not under src/; spec 4.4 gives byte 0 as the
address type (0x01 IPv4, 0x03 domain, 0x04 IPv6), an IPv4/IPv6 address of
4/16 raw bytes plus a 2-byte big-endian port, and a domain header of 1 length
byte + name + 2 port bytes.  `UDPIPv4PacketLength = 1 + IPv4PacketLength`,
`UDPIPv6PacketLength = 1 + IPv6PacketLength` and `DMHeaderLength = 1 + 1 + 2`
are in src (`sockd` constants). -/
def AddressTypeIndex : Nat := 0

def AddressTypeIPv4 : Nat := 1

def AddressTypeDM : Nat := 3

def AddressTypeIPv6 : Nat := 4

def AddressTypeMask : Nat := 15

def UDPIPv4PacketLength : Nat := 1 + (4 + 2)

def UDPIPv6PacketLength : Nat := 1 + (16 + 2)

def DMAddrLengthIndex : Nat := 1

def DMAddrHeaderLength : Nat := 2

/-- `sockd.UDPCipherConnection.ReadFrom`: a raw datagram shorter than the
cipher's IV length is rejected as `ErrMalformedUDPPacket` (`none` here);
otherwise the IV prefix seeds the decryption stream and the remainder is
decrypted.  The stream cipher itself lives outside src/, so decryption is an
opaque function of the IV and the ciphertext. -/
def udpCipherReadFrom (ivLength : Nat) (decrypt : List Nat → List Nat → List Nat)
    (raw : List Nat) : Option (List Nat) :=
  if raw.length < ivLength then none
  else some (decrypt (raw.take ivLength) (raw.drop ivLength))

/-- What one incoming UDP datagram makes the relay do. -/
inductive RelayReaction where
  /-- `misc.EmergencyLockDown` is set: the loop returns `ErrEmergencyLockDown`. -/
  | lockdownStop : RelayReaction
  /-- The read error text contains "closed": `StartAndBlockUDP` returns nil. -/
  | returnNil : RelayReaction
  /-- Any other read error (such as `ErrMalformedUDPPacket`): the loop logs a
  warning and continues; nothing is written to the client. -/
  | logDrop : RelayReaction
  /-- The rate limiter refused the client IP: the packet is ignored. -/
  | rateDrop : RelayReaction
  /-- `HandleUDPConnection` calls `WriteRand`: a random-length encrypted decoy
  reply is sent to the client. -/
  | decoy : RelayReaction
  /-- The packet is relayed: SOCKS-style header and the payload forwarded. -/
  | forward (header body : List Nat) : RelayReaction
deriving DecidableEq

/-- `sockd.Daemon.HandleUDPConnection` (address-header handling only; the NAT
table and backlog bookkeeping of the forward path are outside the claims):
decode the address type at byte `AddressTypeIndex` masked with
`AddressTypeMask`, check the per-type length, reject domain names containing a
NUL byte or failing resolution (`resolveOK` abstracts `net.ResolveIPAddr`),
and on any malformed header send the decoy reply (`WriteRand`).  `n` is the
decrypted payload length, `packet` the receive buffer handed over by the
caller. -/
def handleUDPReaction (resolveOK : List Nat → Bool) (n : Nat)
    (packet : List Nat) : RelayReaction :=
  let addrType := packet.getD AddressTypeIndex 0
  let maskedType := addrType &&& AddressTypeMask
  if maskedType = AddressTypeIPv4 then
    if packet.length < UDPIPv4PacketLength then .decoy
    else
      .forward (packet.take UDPIPv4PacketLength)
        ((packet.drop UDPIPv4PacketLength).take (n - UDPIPv4PacketLength))
  else if maskedType = AddressTypeIPv6 then
    if packet.length < UDPIPv6PacketLength then .decoy
    else
      .forward (packet.take UDPIPv6PacketLength)
        ((packet.drop UDPIPv6PacketLength).take (n - UDPIPv6PacketLength))
  else if maskedType = AddressTypeDM then
    let packetLen := packet.getD DMAddrLengthIndex 0 + (1 + 1 + 2)
    if packet.length < packetLen then .decoy
    else
      let resolveName := (packet.drop DMAddrHeaderLength).take
        (packet.getD DMAddrLengthIndex 0)
      if 0 ∈ resolveName then .decoy
      else if resolveOK resolveName then
        .forward (packet.take packetLen) ((packet.drop packetLen).take (n - packetLen))
      else .decoy
  else .decoy

/-- One iteration of `sockd.Daemon.StartAndBlockUDP`: check the lockdown flag,
read and decrypt one datagram (`closedErr` stands for the listener having been
closed, the only read error whose text contains "closed"), rate-limit the
client IP, then hand payload length and the receive buffer (decrypted bytes
followed by the unwritten zero tail) to `HandleUDPConnection`.  A datagram
shorter than the IV length surfaces as `ErrMalformedUDPPacket`, which the loop
merely logs before continuing — no reply of any kind is sent for it. -/
def udpDaemonStep (ivLength : Nat) (decrypt : List Nat → List Nat → List Nat)
    (resolveOK : List Nat → Bool) (lockdown closedErr admitted : Bool)
    (raw : List Nat) : RelayReaction :=
  if lockdown then .lockdownStop
  else if closedErr then .returnNil
  else
    match udpCipherReadFrom ivLength decrypt raw with
    | none => .logDrop
    | some payload =>
      if admitted then
        handleUDPReaction resolveOK payload.length
          (payload ++ List.replicate (MaxPacketSize - payload.length) 0)
      else .rateDrop

/-! ## toolbox (Command and Result) -/

/-- Command execution errors surfaced through the processor; each named
constructor is one error value of the source, while `featureError` and
`filterError` stand for the opaque errors a feature or a result filter may
return through its interface. -/
inductive Err where
  | errEmptyCommand : Err
  | errPINMismatch : Err
  | errBadPrefix : Err
  | errBadPLT : Err
  | errPLTNoLintText : Err
  | errEmergencyLockDown : Err
  | featureError (code : Nat) : Err
  | filterError (code : Nat) : Err
deriving DecidableEq

/-- `toolbox.Command`. -/
structure Command where
  timeoutSec : Int
  content : List Char
deriving DecidableEq

/-- `toolbox.Result`. -/
structure Result where
  command : Command
  error : Option Err
  output : List Char
  combinedOutput : List Char
deriving DecidableEq

/-- `toolbox.Command.Trim`: trim white space in place; empty content yields
the `ErrEmptyCommand` result (whose command field is the zero value, as in the
source — the caller overwrites it at the `result:` label). -/
def Command.trim (cmd : Command) : Command × Option Result :=
  let cmd := { cmd with content := trimSpace cmd.content }
  if cmd.content = [] then
    (cmd, some { command := ⟨0, []⟩, error := some .errEmptyCommand,
                 output := [], combinedOutput := [] })
  else (cmd, none)

/-- `toolbox.Command.FindAndRemovePrefix`: trim a copy, test the lead, and
only when it matches strip it and trim again; the content is untouched when
the lead does not match. -/
def Command.findAndRemove (cmd : Command) (lead : List Char) : Command × Bool :=
  let trimmedOriginal := trimSpace cmd.content
  if startsWithL trimmedOriginal lead then
    ({ cmd with content := trimSpace (trimmedOriginal.drop lead.length) }, true)
  else (cmd, false)

/-- The Go `Error()` strings of the processor error values (the lock-down and
PIN texts live outside src/; only presence or absence of error text matters to
the embedded code, which never inspects these strings). -/
def errText : Err → List Char
  | .errEmptyCommand => "Empty command".toList
  | .errPINMismatch => "Failed to match PIN/shortcut".toList
  | .errBadPrefix => "bad prefix or feature is not configured".toList
  | .errBadPLT => ".plt P L T command".toList
  | .errPLTNoLintText => "PLT is not available because LintText is not used".toList
  | .errEmergencyLockDown => "emergency lock-down is in effect".toList
  | .featureError code => 'F' :: List.replicate code '#'
  | .filterError code => 'B' :: List.replicate code '#'

/-- `toolbox.Result.ResetCombinedText`: error text, then the `|` separator
when both error and output are present, then the output. -/
def Result.resetCombinedOf (result : Result) : Result :=
  let c :=
    match result.error with
    | some e => errText e ++ (if result.output ≠ [] then ['|'] else [])
    | none => []
  { result with combinedOutput := c ++ result.output }

/-! ## toolbox/filter models -/

/-- `filter.LintText` configuration fields. -/
structure LintTextConf where
  trimSpaces : Bool
  compressSpaces : Bool
  compressToSingleLine : Bool
  keepVisible7BitCharOnly : Bool
  maxLength : Int
  beginPosition : Int
deriving DecidableEq

/-- The Go zero value of `filter.LintText`, i.e. the initial value of the
local `overrideLintText` variable in `Process`. -/
def zeroLintConf : LintTextConf := ⟨false, false, false, false, 0, 0⟩

/-- `filter.CommandFilter` values as the processor and the sanity check see
them: `PINAndShortcuts` and `TranslateSequences` carry the configuration the
type switches inspect; any other command filter is just its `Transform`. -/
inductive CommandFilter where
  | pinAndShortcuts (pin : List Char)
      (shortcuts : List (List Char × List Char)) : CommandFilter
  | translateSequences (sequences : List (List Char × List Char)) : CommandFilter
  | fn (transform : Command → Command × Option Err) : CommandFilter

/-- Go `strings.Replace s old new -1` (fuel = length of `s`; every iteration
consumes at least one character).  An empty `old` is treated as the identity
(the configured sequences are nonempty pairs). -/
def replaceAllF : Nat → List Char → List Char → List Char → List Char
  | 0, s, _, _ => s
  | _ + 1, [], _, _ => []
  | fuel + 1, c :: rest, old, new =>
    if startsWithL (c :: rest) old ∧ old ≠ [] then
      new ++ replaceAllF fuel ((c :: rest).drop old.length) old new
    else c :: replaceAllF fuel rest old new

/-- Go `strings.Replace s old new -1`. -/
def replaceAll (s old new : List Char) : List Char := replaceAllF s.length s old new

/-- Modelled from the spec: the `toolbox/filter` package is not under src/.
Spec 3, PINAndShortcuts: if the trimmed input starts with the configured
(nonempty) PIN, strip it and the surrounding white space and pass through;
else if the trimmed input equals a shortcut key, replace the content with the
mapped text; else fail with `ErrPINMismatch`.  An empty PIN never
authenticates — the sanity check allows an empty PIN only together with
shortcuts, which are then the only way in. -/
def pinAndShortcutsTransform (pin : List Char)
    (shortcuts : List (List Char × List Char)) (cmd : Command) :
    Command × Option Err :=
  let t := trimSpace cmd.content
  if pin ≠ [] ∧ startsWithL t pin then
    ({ cmd with content := trimSpace (t.drop pin.length) }, none)
  else
    match alookup shortcuts t with
    | some target => ({ cmd with content := target }, none)
    | none => (cmd, some .errPINMismatch)

/-- Modelled from the spec (`toolbox/filter` not under src/): TranslateSequences
holds ordered pairs and applies each as a literal substitution across the
content; it never fails. -/
def translateSequencesTransform (sequences : List (List Char × List Char))
    (cmd : Command) : Command :=
  { cmd with content := sequences.foldl (fun c p => replaceAll c p.1 p.2) cmd.content }

/-- Dispatch of `CommandFilter.Transform`. -/
def CommandFilter.transform : CommandFilter → Command → Command × Option Err
  | .pinAndShortcuts pin shortcuts, cmd => pinAndShortcutsTransform pin shortcuts cmd
  | .translateSequences seqs, cmd => (translateSequencesTransform seqs cmd, none)
  | .fn t, cmd => t cmd

/-- `filter.ResultFilter` values as the processor sees them: the type switch
in `Process` and the sanity check single out `*filter.LintText`, whose
configuration must therefore be visible; `ResetCombinedText` wraps
`toolbox.Result.ResetCombinedText` (in src); any other result filter is just
its `Transform`. -/
inductive ResultFilter where
  | lintText (conf : LintTextConf) : ResultFilter
  | resetCombinedText : ResultFilter
  | fn (transform : Result → Option Err × Result) : ResultFilter

/-- Dispatch of `ResultFilter.Transform`; `lintTransform` is
`(*filter.LintText).Transform`, which lives outside src/ and therefore stays
an explicit parameter, applied to whichever configuration copy the processor
selects. -/
def ResultFilter.transform
    (lintTransform : LintTextConf → Result → Option Err × Result) :
    ResultFilter → Result → Option Err × Result
  | .lintText conf, r => lintTransform conf r
  | .resetCombinedText, r => (none, r.resetCombinedOf)
  | .fn t, r => t r

/-! ## common.CommandProcessor -/

/-- `common.PrefixCommandPLT`. -/
def prefixCommandPLT : List Char := ['.', 'p', 'l', 't']

/-- Maximal run of characters satisfying `p` at the head of the string. -/
def runLen (p : Char → Bool) : List Char → Nat
  | [] => 0
  | c :: rest => if p c then runLen p rest + 1 else 0

/-- Candidate lengths for a greedy `p*` regexp element, longest first. -/
def starLens (p : Char → Bool) (s : List Char) : List Nat :=
  (List.range (runLen p s + 1)).reverse

/-- Candidate lengths for a greedy `p+` regexp element, longest first. -/
def plusLens (p : Char → Bool) (s : List Char) : List Nat :=
  (List.range' 1 (runLen p s)).reverse

/-- First hit of `f` over `xs`; realises the regexp engine's backtracking
preference order over the candidate lists. -/
def firstSome {α β : Type} (f : α → Option β) : List α → Option β
  | [] => none
  | a :: as =>
    match f a with
    | some b => some b
    | none => firstSome f as

/-- ASCII decimal digit (regexp `\d`). -/
def isDigitChar (c : Char) : Bool := 48 ≤ c.toNat ∧ c.toNat ≤ 57

/-- `common.RegexCommandWithPLT` = `[^\d]*(\d+)[^\d]+(\d+)[^\d]*(\d+)(.*)`
matched at one anchor position: nested backtracking with each greedy element
trying its longest candidate first; returns the four capture groups. -/
def pltAnchored (s : List Char) :
    Option (List Char × List Char × List Char × List Char) :=
  firstSome (fun la =>
    let s1 := s.drop la
    firstSome (fun lb =>
      let bcap := s1.take lb
      let s2 := s1.drop lb
      firstSome (fun lc =>
        let s3 := s2.drop lc
        firstSome (fun ld =>
          let dcap := s3.take ld
          let s4 := s3.drop ld
          firstSome (fun le =>
            let s5 := s4.drop le
            firstSome (fun lf => some (bcap, dcap, s5.take lf, s5.drop lf))
              (plusLens isDigitChar s5))
            (starLens (fun c => !isDigitChar c) s4))
          (plusLens isDigitChar s3))
        (plusLens (fun c => !isDigitChar c) s2))
      (plusLens isDigitChar s1))
    (starLens (fun c => !isDigitChar c) s)

/-- `RegexCommandWithPLT.FindStringSubmatch`: leftmost match, so anchors are
tried from position 0 rightwards. -/
def pltMatch (s : List Char) :
    Option (List Char × List Char × List Char × List Char) :=
  firstSome (fun i => pltAnchored (s.drop i)) (List.range (s.length + 1))

/-- The largest Go `int` (64-bit); `strconv.Atoi` clamps to it on overflow. -/
def maxGoInt : Int := 9223372036854775807

/-- `strconv.Atoi` on the digit captures of the PLT regexp: the captures are
nonempty digit runs, so the only failure mode is 64-bit overflow (Go then
returns the clamped maximum together with an error). -/
def goAtoi (s : List Char) : Option Int :=
  if s = [] ∨ ¬ s.all isDigitChar then none
  else
    let v := s.foldl (fun (acc : Nat) c => acc * 10 + (c.toNat - 48)) 0
    if v ≤ 9223372036854775807 then some (v : Int) else none

/-- The scan in `Process` (and in the sanity check) for the first configured
`LintText` result filter. -/
def firstLintConf : List ResultFilter → Option LintTextConf
  | [] => none
  | .lintText conf :: _ => some conf
  | _ :: rest => firstLintConf rest

/-- The command-filter loop of `Process`: the first error short-circuits (the
command keeps the failing filter's output value, as in the source multiple
assignment). -/
def runCommandFilters : List CommandFilter → Command → Command × Option Err
  | [], cmd => (cmd, none)
  | f :: rest, cmd =>
    match f.transform cmd with
    | (cmd1, some e) => (cmd1, some e)
    | (cmd1, none) => runCommandFilters rest cmd1

/-- The feature-trigger scan of `Process`: the first trigger accepted by
`FindAndRemovePrefix` wins and the stripped command is kept; non-matching
triggers leave the command untouched. -/
def lookupFeature :
    List (List Char × (Command → Result)) → Command →
      Option ((Command → Result) × Command)
  | [], _ => none
  | (trigger, feat) :: rest, cmd =>
    match cmd.findAndRemove trigger with
    | (cmd1, true) => some (feat, cmd1)
    | (_, false) => lookupFeature rest cmd

/-- The result-filter loop of `Process`: each filter transforms the result in
place; while the PLT override is active every `LintText` filter is replaced by
the overridden copy for this call only; on the first filter error the loop
returns a fresh result carrying the current result's command and the *stale*
`bridgeErr` of the command-filter phase — not the failing filter's error
(see C1). -/
def runResultFilters (lintTransform : LintTextConf → Result → Option Err × Result)
    (hasOverride : Bool) (overrideConf : LintTextConf) (bridgeErr : Option Err) :
    List ResultFilter → Result → Result
  | [], r => r
  | f :: rest, r =>
    let f1 : ResultFilter :=
      match f with
      | .lintText conf => if hasOverride then .lintText overrideConf else .lintText conf
      | other => other
    match f1.transform lintTransform r with
    | (some _, r1) =>
      { command := r1.command, error := bridgeErr, output := [], combinedOutput := [] }
    | (none, r1) =>
      runResultFilters lintTransform hasOverride overrideConf bridgeErr rest r1

/-- The `result:` label of `Process`: stamp the current command into the
result, restore the captured log content, then walk the result filters. -/
def resultPhase (lintTransform : LintTextConf → Result → Option Err × Result)
    (resultFilters : List ResultFilter) (hasOverride : Bool)
    (overrideConf : LintTextConf) (bridgeErr : Option Err) (cmdNow : Command)
    (logContent : List Char) (ret : Result) : Result :=
  runResultFilters lintTransform hasOverride overrideConf bridgeErr resultFilters
    { ret with command := { timeoutSec := cmdNow.timeoutSec, content := logContent } }

/-- The feature dispatch and execution of `Process` followed by the result
phase: an unmatched trigger map yields `ErrBadPrefix`. -/
def featurePhase (lintTransform : LintTextConf → Result → Option Err × Result)
    (resultFilters : List ResultFilter) (hasOverride : Bool)
    (overrideConf : LintTextConf)
    (features : List (List Char × (Command → Result))) (cmdF : Command)
    (logContent : List Char) : Result :=
  match lookupFeature features cmdF with
  | none =>
    resultPhase lintTransform resultFilters hasOverride overrideConf none cmdF
      logContent
      { command := ⟨0, []⟩, error := some .errBadPrefix,
        output := [], combinedOutput := [] }
  | some (feat, cmd5) =>
    resultPhase lintTransform resultFilters hasOverride overrideConf none cmd5
      logContent (feat cmd5)

/-- `common.CommandProcessor.Process`.  `lintTransform` is
`(*filter.LintText).Transform` (outside src/, kept abstract);
`emergencyLockDown` is the `misc.EmergencyLockDown` global; the three lists
are the processor's fields, with `Features.LookupByTrigger` as trigger/execute
pairs in iteration order.  The returned list is the processor's installed
result filters as left behind by the call: the source never assigns through
the installed filter pointers (the PLT override writes only the local copy
`overrideLintText`), so every path hands the list back unchanged.  On the
`strconv.Atoi` overflow branches the affected field keeps Go's clamped
maximum, mirroring the source's multiple assignment. -/
def process (lintTransform : LintTextConf → Result → Option Err × Result)
    (emergencyLockDown : Bool) (commandFilters : List CommandFilter)
    (resultFilters : List ResultFilter)
    (features : List (List Char × (Command → Result))) (cmd : Command) :
    Result × List ResultFilter :=
  if emergencyLockDown then
    ({ command := ⟨0, []⟩, error := some .errEmergencyLockDown,
       output := [], combinedOutput := [] }, resultFilters)
  else
    match runCommandFilters commandFilters cmd with
    | (cmd1, some e) =>
      (resultPhase lintTransform resultFilters false zeroLintConf (some e) cmd1
        cmd.content
        { command := ⟨0, []⟩, error := some e, output := [], combinedOutput := [] },
       resultFilters)
    | (cmd1, none) =>
      match cmd1.trim with
      | (cmd2, some retTrim) =>
        (resultPhase lintTransform resultFilters false zeroLintConf none cmd2
          cmd.content retTrim, resultFilters)
      | (cmd2, none) =>
        let logContent := cmd2.content
        match cmd2.findAndRemove prefixCommandPLT with
        | (cmd3, true) =>
          match firstLintConf resultFilters with
          | none =>
            (resultPhase lintTransform resultFilters false zeroLintConf none cmd3
              logContent
              { command := ⟨0, []⟩, error := some .errPLTNoLintText,
                output := [], combinedOutput := [] }, resultFilters)
          | some conf0 =>
            match pltMatch cmd3.content with
            | none =>
              (resultPhase lintTransform resultFilters true conf0 none cmd3
                logContent
                { command := ⟨0, []⟩, error := some .errBadPLT,
                  output := [], combinedOutput := [] }, resultFilters)
            | some (bs, ds, fs, g) =>
              match goAtoi bs with
              | none =>
                (resultPhase lintTransform resultFilters true
                  { conf0 with beginPosition := maxGoInt } none cmd3 logContent
                  { command := ⟨0, []⟩, error := some .errBadPLT,
                    output := [], combinedOutput := [] }, resultFilters)
              | some p =>
                match goAtoi ds with
                | none =>
                  (resultPhase lintTransform resultFilters true
                    { conf0 with beginPosition := p, maxLength := maxGoInt } none
                    cmd3 logContent
                    { command := ⟨0, []⟩, error := some .errBadPLT,
                      output := [], combinedOutput := [] }, resultFilters)
                | some l =>
                  match goAtoi fs with
                  | none =>
                    (resultPhase lintTransform resultFilters true
                      { conf0 with beginPosition := p, maxLength := l } none
                      { cmd3 with timeoutSec := maxGoInt } logContent
                      { command := ⟨0, []⟩, error := some .errBadPLT,
                        output := [], combinedOutput := [] }, resultFilters)
                  | some t =>
                    let conf1 := { conf0 with beginPosition := p, maxLength := l }
                    let cmd4 := { cmd3 with timeoutSec := t, content := g }
                    if cmd4.content = [] then
                      (resultPhase lintTransform resultFilters true conf1 none cmd4
                        logContent
                        { command := ⟨0, []⟩, error := some .errBadPLT,
                          output := [], combinedOutput := [] }, resultFilters)
                    else
                      (featurePhase lintTransform resultFilters true conf1 features
                        cmd4 logContent, resultFilters)
        | (cmd3, false) =>
          (featurePhase lintTransform resultFilters false zeroLintConf features
            cmd3 logContent, resultFilters)

/-- The findings of `common.CommandProcessor.IsSaneForInternet`, one
constructor per `errors.New` site. -/
inductive ConfigFinding where
  | featureSetNotAssigned : ConfigFinding
  | featureSetEmpty : ConfigFinding
  | commandFiltersNotAssigned : ConfigFinding
  | pinEmptyAndNoShortcut : ConfigFinding
  | pinTooShort : ConfigFinding
  | pinFilterMissing : ConfigFinding
  | resultFiltersNotAssigned : ConfigFinding
  | lintTextMaxLengthOutOfRange : ConfigFinding
  | lintTextMissing : ConfigFinding
deriving DecidableEq

/-- The scan in `IsSaneForInternet` for the first `PINAndShortcuts` command
filter (the loop breaks at the first one). -/
def firstPinFilter :
    List CommandFilter → Option (List Char × List (List Char × List Char))
  | [] => none
  | .pinAndShortcuts pin shortcuts :: _ => some (pin, shortcuts)
  | _ :: rest => firstPinFilter rest

/-- The feature-set block of `IsSaneForInternet` (`none` models a Go nil
pointer). -/
def featureFindings :
    Option (List (List Char × (Command → Result))) → List ConfigFinding
  | none => [ConfigFinding.featureSetNotAssigned]
  | some fs => if fs.length = 0 then [ConfigFinding.featureSetEmpty] else []

/-- The command-filter (PIN) block of `IsSaneForInternet` (`none` models a Go
nil slice): both checks of the first `PINAndShortcuts` filter run, in source
order. -/
def pinFindings : Option (List CommandFilter) → List ConfigFinding
  | none => [ConfigFinding.commandFiltersNotAssigned]
  | some l =>
    match firstPinFilter l with
    | none => [ConfigFinding.pinFilterMissing]
    | some (pin, shortcuts) =>
      (if pin = [] ∧ shortcuts.length = 0 then [ConfigFinding.pinEmptyAndNoShortcut]
       else [])
      ++ (if pin ≠ [] ∧ pin.length < 7 then [ConfigFinding.pinTooShort] else [])

/-- The result-filter (LintText) block of `IsSaneForInternet`. -/
def lintFindings : Option (List ResultFilter) → List ConfigFinding
  | none => [ConfigFinding.resultFiltersNotAssigned]
  | some l =>
    match firstLintConf l with
    | none => [ConfigFinding.lintTextMissing]
    | some conf =>
      if conf.maxLength < 35 ∨ 4096 < conf.maxLength then
        [ConfigFinding.lintTextMaxLengthOutOfRange]
      else []

/-- `common.CommandProcessor.IsSaneForInternet` over the three nilable
processor fields: the findings of its three blocks, appended in source
order. -/
def IsSaneForInternet
    (features : Option (List (List Char × (Command → Result))))
    (commandFilters : Option (List CommandFilter))
    (resultFilters : Option (List ResultFilter)) : List ConfigFinding :=
  featureFindings features ++ pinFindings commandFilters ++ lintFindings resultFilters

/-- The findings of the command-filter block of `IsSaneForInternet`, i.e.
those C4 calls "PIN-related". -/
def pinRelated : ConfigFinding → Bool
  | .commandFiltersNotAssigned => true
  | .pinEmptyAndNoShortcut => true
  | .pinTooShort => true
  | .pinFilterMissing => true
  | _ => false

/-- A probing lint transform used to observe which configuration copy
`Process` hands to the `LintText` transform: it records the begin position
and the maximum length in the combined output, injectively in those two
fields. -/
def probeLintTransform (conf : LintTextConf) (r : Result) : Option Err × Result :=
  (none, { r with combinedOutput :=
    List.replicate conf.beginPosition.toNat 'x' ++ 'y' ::
      List.replicate conf.maxLength.toNat 'x' })

/-! # Theorems -/

/-! ## Association lists -/

theorem alookup_aupdate_self {β : Type} (l : List (List Char × β)) (a : List Char)
    (b c : β) (h : alookup l a = some c) : alookup (aupdate l a b) a = some b := by
  induction l with
  | nil => simp [alookup] at h
  | cons kv rest ih =>
    obtain ⟨k, v⟩ := kv
    by_cases hk : k = a
    · simp [alookup, aupdate, hk]
    · simp only [alookup, aupdate, if_neg hk] at h ⊢
      exact ih h

theorem alookup_aupdate_ne {β : Type} (l : List (List Char × β)) (a a' : List Char)
    (b : β) (h : a ≠ a') : alookup (aupdate l a b) a' = alookup l a' := by
  induction l with
  | nil => simp [alookup, aupdate]
  | cons kv rest ih =>
    obtain ⟨k, v⟩ := kv
    by_cases hk : k = a
    · subst hk
      simp [alookup, aupdate, if_neg h]
    · simp only [alookup, aupdate, if_neg hk]
      by_cases hk' : k = a'
      · simp [hk']
      · simp only [if_neg hk']
        exact ih

/-! ## Rate limiter: C2 and C3 -/

/-- Inside one window (no reset fires), `Add` keeps the configuration and the
window timestamp. -/
theorem RateLimit.Add_no_reset (s : RateLimit) (a : List Char) (lg : Bool) (t : Int)
    (h : ¬ s.unitSecs ≤ t - s.lastTimestamp) :
    (RateLimit.Add s a lg t).2.unitSecs = s.unitSecs ∧
    (RateLimit.Add s a lg t).2.maxCount = s.maxCount ∧
    (RateLimit.Add s a lg t).2.lastTimestamp = s.lastTimestamp := by
  unfold RateLimit.Add resetIfDue
  rw [if_neg h]
  rcases hl : alookup s.counter a with _ | c
  · simp [hl]
  · by_cases hc : s.maxCount ≤ c
    · simp only [hl, if_pos hc]
      by_cases hlog : lg ∧ a ∉ s.logged <;> simp [hlog]
    · simp [hl, if_neg hc]

/-- Helper for C2: within one fixed window the admissions for an actor are
bounded by `MaxCount` minus the counter value already accumulated. -/
theorem admitted_bound_aux (actor : List Char) :
    ∀ (calls : List (List Char × Bool × Int)) (s : RateLimit),
      1 ≤ s.maxCount →
      (∀ c ∈ calls, c.2.2 - s.lastTimestamp < s.unitSecs) →
      s.countOf actor ≤ s.maxCount →
      s.countOf actor + admittedCount s actor calls ≤ s.maxCount := by
  intro calls
  induction calls with
  | nil => intro s hmax _ hcount; simpa [admittedCount] using hcount
  | cons call rest ih =>
    intro s hmax htimes hcount
    obtain ⟨a, lg, t⟩ := call
    have htime1 : t - s.lastTimestamp < s.unitSecs := by
      simpa using htimes (a, lg, t) (by simp)
    have hnoreset : ¬ s.unitSecs ≤ t - s.lastTimestamp := by omega
    have hstep :
        RateLimit.Add s a lg t =
          (match alookup s.counter a with
           | some count =>
             if s.maxCount ≤ count then
               (false,
                 if lg ∧ a ∉ s.logged then { s with logged := a :: s.logged } else s)
             else
               (true, { s with counter := aupdate s.counter a (count + 1) })
           | none => (true, { s with counter := (a, 1) :: s.counter })) := by
      unfold RateLimit.Add resetIfDue
      rw [if_neg hnoreset]
    have hresttimes :
        ∀ (s' : RateLimit), s'.unitSecs = s.unitSecs →
          s'.lastTimestamp = s.lastTimestamp →
          ∀ c ∈ rest, c.2.2 - s'.lastTimestamp < s'.unitSecs := by
      intro s' hu hl c hc
      rw [hu, hl]
      exact htimes c (by simp [hc])
    rcases hl : alookup s.counter a with _ | count
    · -- actor `a` unseen in this window: admitted, counter set to 1
      by_cases ha : a = actor
      · subst ha
        have hc0 : s.countOf a = 0 := by simp [RateLimit.countOf, hl]
        have ihs := ih { s with counter := (a, 1) :: s.counter } (by simpa using hmax)
          (by intro c hc; simpa using htimes c (by simp [hc]))
          (by simp [RateLimit.countOf, alookup]; omega)
        simp only [RateLimit.countOf, alookup, if_pos rfl, Option.getD_some] at ihs
        simp only [admittedCount, hstep, hl, hc0]
        simpa using ihs
      · have ihs := ih { s with counter := (a, 1) :: s.counter } (by simpa using hmax)
          (by intro c hc; simpa using htimes c (by simp [hc]))
          (by simpa [RateLimit.countOf, alookup, if_neg ha] using hcount)
        simp only [admittedCount, hstep, hl]
        simpa [ha, RateLimit.countOf, alookup, if_neg ha] using ihs
    · by_cases hover : s.maxCount ≤ count
      · -- refused: counter untouched (only `logged` may change)
        have hsame : ∀ (s' : RateLimit), s'.counter = s.counter →
            s'.unitSecs = s.unitSecs → s'.lastTimestamp = s.lastTimestamp →
            s'.maxCount = s.maxCount →
            s.countOf actor + admittedCount s' actor rest ≤ s.maxCount := by
          intro s' hcnt hu hlast hm
          have := ih s' (by omega) (hresttimes s' hu hlast)
            (by simpa [RateLimit.countOf, hcnt, hm] using hcount)
          simpa [RateLimit.countOf, hcnt, hm] using this
        simp only [admittedCount, hstep, hl, if_pos hover]
        by_cases hlog : lg ∧ a ∉ s.logged
        · simpa [hlog] using hsame { s with logged := a :: s.logged } rfl rfl rfl rfl
        · simpa [hlog] using hsame s rfl rfl rfl rfl
      · -- admitted: counter bumped to count + 1
        have hlt : count < s.maxCount := by omega
        set s' : RateLimit := { s with counter := aupdate s.counter a (count + 1) } with hs'
        have hupd : alookup s'.counter a = some (count + 1) :=
          alookup_aupdate_self s.counter a (count + 1) count hl
        by_cases ha : a = actor
        · subst ha
          have hc : s.countOf a = count := by simp [RateLimit.countOf, hl]
          have ihs := ih s' (by simpa [hs'] using hmax)
            (hresttimes s' rfl rfl)
            (by simp [RateLimit.countOf, hupd]; omega)
          simp only [RateLimit.countOf, hupd, Option.getD_some] at ihs
          simp only [admittedCount, hstep, hl, if_neg hover, hc]
          have ihs2 : count + 1 + admittedCount s' a rest ≤ s.maxCount := by
            simpa [hs'] using ihs
          have hgoal : count + (1 + admittedCount s' a rest) ≤ s.maxCount := by omega
          simpa [hs'] using hgoal
        · have hne : alookup s'.counter actor = alookup s.counter actor :=
            alookup_aupdate_ne s.counter a actor (count + 1) ha
          have ihs := ih s' (by simpa [hs'] using hmax)
            (hresttimes s' rfl rfl)
            (by simpa [RateLimit.countOf, hne, hs'] using hcount)
          simp only [admittedCount, hstep, hl, if_neg hover]
          simpa [ha, RateLimit.countOf, hne, hs'] using ihs

theorem resetIfDue_unitSecs (s : RateLimit) (now : Int) :
    (resetIfDue s now).unitSecs = s.unitSecs := by
  unfold resetIfDue; split <;> rfl

theorem resetIfDue_maxCount (s : RateLimit) (now : Int) :
    (resetIfDue s now).maxCount = s.maxCount := by
  unfold resetIfDue; split <;> rfl

/-- C2, counterexample to the claim as stated: admissions are bounded per
*fixed* window only, not per arbitrary interval of length `UnitSecs`.  With
`UnitSecs = 10` and `MaxCount = 1`, a window is established at time 1000 by
actor `b`; actor `a` is then admitted at time 1009 (inside that window) and
again at time 1010 (the first call of the next window), i.e. twice within the
interval `[1009, 1019)` whose length is exactly `UnitSecs`. -/
theorem c2_interval_counterexample :
    admittedCount (RateLimit.Add ⟨10, 1, 0, [], []⟩ ['b'] false 1000).2 ['a']
        [(['a'], false, 1009), (['a'], false, 1010)] = 2 ∧
    (RateLimit.Add ⟨10, 1, 0, [], []⟩ ['b'] false 1000).2.maxCount = 1 ∧
    (RateLimit.Add ⟨10, 1, 0, [], []⟩ ['b'] false 1000).2.unitSecs = 10 ∧
    (1010 : Int) - 1009 < 10 := by decide

/-- C2 (amended): the bound holds per fixed window, not per arbitrary
interval.  For every actor with no counter entry in the current window, and
for every sequence of `Add` calls whose timestamps all stay inside the current
window (`now - lastTimestamp < UnitSecs`, so no reset fires), at most
`MaxCount` of those calls return `true` for that actor. -/
theorem c2_fixed_window_admission_bound (s : RateLimit) (actor : List Char)
    (calls : List (List Char × Bool × Int))
    (hmax : 1 ≤ s.maxCount)
    (hwindow : ∀ c ∈ calls, c.2.2 - s.lastTimestamp < s.unitSecs)
    (hfresh : alookup s.counter actor = none) :
    admittedCount s actor calls ≤ s.maxCount := by
  have h := admitted_bound_aux actor calls s hmax hwindow
    (by simp [RateLimit.countOf, hfresh])
  simpa [RateLimit.countOf, hfresh] using h

/-- Witness for C2: three calls inside one window with `MaxCount = 2` admit at
most (here: exactly) two of them. -/
theorem c2_fixed_window_admission_bound_witness :
    1 ≤ (⟨10, 2, 1000, [], []⟩ : RateLimit).maxCount ∧
    (∀ c ∈ [(['a'], false, (1001 : Int)), (['a'], false, 1002), (['a'], false, 1003)],
      c.2.2 - (⟨10, 2, 1000, [], []⟩ : RateLimit).lastTimestamp
        < (⟨10, 2, 1000, [], []⟩ : RateLimit).unitSecs) ∧
    alookup (⟨10, 2, 1000, [], []⟩ : RateLimit).counter ['a'] = none ∧
    admittedCount ⟨10, 2, 1000, [], []⟩ ['a']
        [(['a'], false, 1001), (['a'], false, 1002), (['a'], false, 1003)]
      ≤ (⟨10, 2, 1000, [], []⟩ : RateLimit).maxCount :=
  ⟨by decide, by decide, by decide,
    c2_fixed_window_admission_bound ⟨10, 2, 1000, [], []⟩ ['a']
      [(['a'], false, 1001), (['a'], false, 1002), (['a'], false, 1003)]
      (by decide) (by decide) (by decide)⟩

/-- C3, counterexample to the claim as stated: a refused call does *not*
increment `counter[actor]`.  With `MaxCount = 1` and `counter[a] = 1` inside
the current window, `Add` refuses and leaves the counter at 1, while the
claim's unconditional-increment reading (`rateLimitAddClaim`) would store 2. -/
theorem c3_no_increment_counterexample :
    (RateLimit.Add ⟨10, 1, 100, [(['a'], 1)], []⟩ ['a'] true 105).1 = false ∧
    (RateLimit.Add ⟨10, 1, 100, [(['a'], 1)], []⟩ ['a'] true 105).2.countOf ['a'] = 1 ∧
    (rateLimitAddClaim ⟨10, 1, 100, [(['a'], 1)], []⟩ ['a'] 105).1 = false ∧
    (rateLimitAddClaim ⟨10, 1, 100, [(['a'], 1)], []⟩ ['a'] 105).2.countOf ['a'] = 2 := by
  decide

/-- C3 (amended): every `Add` call first re-initialises the counter map, the
logged set and `lastTimestamp` whenever `now - lastTimestamp >= UnitSecs`
(`resetIfDue`); it then returns `true` iff the incremented counter value would
be at most `MaxCount`, and it performs that increment exactly when it admits —
a refused call leaves the actor's counter unchanged. -/
theorem c3_add_admission_rule (s : RateLimit) (actor : List Char) (lg : Bool)
    (now : Int) (hmax : 1 ≤ s.maxCount) :
    (RateLimit.Add s actor lg now).1
        = decide ((resetIfDue s now).countOf actor + 1 ≤ s.maxCount) ∧
    (RateLimit.Add s actor lg now).2.countOf actor
        = (if (resetIfDue s now).countOf actor + 1 ≤ s.maxCount
           then (resetIfDue s now).countOf actor + 1
           else (resetIfDue s now).countOf actor) ∧
    (RateLimit.Add s actor lg now).2.lastTimestamp = (resetIfDue s now).lastTimestamp ∧
    (RateLimit.Add s actor lg now).2.unitSecs = s.unitSecs ∧
    (RateLimit.Add s actor lg now).2.maxCount = s.maxCount := by
  have hmaxb : (resetIfDue s now).maxCount = s.maxCount := resetIfDue_maxCount s now
  have hunitb : (resetIfDue s now).unitSecs = s.unitSecs := resetIfDue_unitSecs s now
  unfold RateLimit.Add
  rcases hl : alookup (resetIfDue s now).counter actor with _ | c
  · have h0 : (resetIfDue s now).countOf actor = 0 := by
      simp [RateLimit.countOf, hl]
    simp [hl, h0, RateLimit.countOf, alookup, hmaxb, hunitb, hmax]
  · have hc : (resetIfDue s now).countOf actor = c := by
      simp [RateLimit.countOf, hl]
    by_cases hover : s.maxCount ≤ c
    · have hnotle : ¬ c + 1 ≤ s.maxCount := by omega
      by_cases hlog : lg ∧ actor ∉ (resetIfDue s now).logged <;>
        simp [hl, hover, hlog, hc, hnotle, RateLimit.countOf, hmaxb, hunitb]
    · have hle : c + 1 ≤ s.maxCount := by omega
      have hupd := alookup_aupdate_self (resetIfDue s now).counter actor (c + 1) c hl
      simp [hl, hover, hc, hle, RateLimit.countOf, hupd, hmaxb, hunitb]

/-- Witness for C3: the admission rule evaluated at a concrete fresh state. -/
theorem c3_add_admission_rule_witness :
    1 ≤ (⟨10, 2, 0, [], []⟩ : RateLimit).maxCount ∧
    ((RateLimit.Add ⟨10, 2, 0, [], []⟩ ['a'] false 5).1
        = decide ((resetIfDue ⟨10, 2, 0, [], []⟩ 5).countOf ['a'] + 1
            ≤ (⟨10, 2, 0, [], []⟩ : RateLimit).maxCount) ∧
      (RateLimit.Add ⟨10, 2, 0, [], []⟩ ['a'] false 5).2.countOf ['a']
        = (if (resetIfDue ⟨10, 2, 0, [], []⟩ 5).countOf ['a'] + 1
              ≤ (⟨10, 2, 0, [], []⟩ : RateLimit).maxCount
           then (resetIfDue ⟨10, 2, 0, [], []⟩ 5).countOf ['a'] + 1
           else (resetIfDue ⟨10, 2, 0, [], []⟩ 5).countOf ['a']) ∧
      (RateLimit.Add ⟨10, 2, 0, [], []⟩ ['a'] false 5).2.lastTimestamp
        = (resetIfDue ⟨10, 2, 0, [], []⟩ 5).lastTimestamp ∧
      (RateLimit.Add ⟨10, 2, 0, [], []⟩ ['a'] false 5).2.unitSecs
        = (⟨10, 2, 0, [], []⟩ : RateLimit).unitSecs ∧
      (RateLimit.Add ⟨10, 2, 0, [], []⟩ ['a'] false 5).2.maxCount
        = (⟨10, 2, 0, [], []⟩ : RateLimit).maxCount) :=
  ⟨by decide, c3_add_admission_rule ⟨10, 2, 0, [], []⟩ ['a'] false 5 (by decide)⟩

/-! ## DNS name extraction: C7 -/

theorem isPrefixOf_eq_take (needle hay : List Nat) :
    needle.isPrefixOf hay = true ↔ hay.take needle.length = needle := by
  rw [List.isPrefixOf_iff_prefix, List.prefix_iff_eq_take]
  exact eq_comm

theorem bytesIndex_eq_some_of (needle : List Nat) :
    ∀ (hay : List Nat) (i : Nat),
      (hay.drop i).take needle.length = needle →
      (∀ j, j < i → (hay.drop j).take needle.length ≠ needle) →
      bytesIndex needle hay = some i := by
  intro hay
  induction hay with
  | nil =>
    intro i hfound hmin
    cases i with
    | zero =>
      simp only [List.drop_nil, List.take_nil] at hfound
      unfold bytesIndex
      rw [if_pos ((isPrefixOf_eq_take needle []).2 (by simp [← hfound]))]
    | succ k =>
      exfalso
      refine hmin 0 (by omega) ?_
      simp only [List.drop_nil, List.take_nil] at hfound ⊢
      exact hfound
  | cons h t ih =>
    intro i hfound hmin
    cases i with
    | zero =>
      simp only [List.drop_zero] at hfound
      unfold bytesIndex
      rw [if_pos ((isPrefixOf_eq_take needle (h :: t)).2 hfound)]
    | succ k =>
      have hnot : ¬ needle.isPrefixOf (h :: t) = true := by
        intro hpre
        exact hmin 0 (by omega) (by simpa using (isPrefixOf_eq_take needle (h :: t)).1 hpre)
      unfold bytesIndex
      rw [if_neg hnot]
      have hrec := ih k (by simpa using hfound)
        (by intro j hj; simpa using hmin (j + 1) (by omega))
      rw [hrec]
      rfl

theorem bytesIndex_eq_none_of (needle : List Nat) :
    ∀ (hay : List Nat),
      (∀ j, (hay.drop j).take needle.length ≠ needle) →
      bytesIndex needle hay = none := by
  intro hay
  induction hay with
  | nil =>
    intro hmin
    unfold bytesIndex
    rw [if_neg ?_]
    intro hpre
    exact hmin 0 (by simpa using (isPrefixOf_eq_take needle []).1 hpre)
  | cons h t ih =>
    intro hmin
    have hnot : ¬ needle.isPrefixOf (h :: t) = true := by
      intro hpre
      exact hmin 0 (by simpa using (isPrefixOf_eq_take needle (h :: t)).1 hpre)
    unfold bytesIndex
    rw [if_neg hnot, ih (by intro j; simpa using hmin (j + 1))]
    rfl

theorem findIdxOpt_lt_length {α : Type} (p : α → Bool) :
    ∀ (l : List α) (i : Nat), l.findIdx? p = some i → i < l.length := by
  intro l
  induction l with
  | nil => intro i h; simp [List.findIdx?_nil] at h
  | cons x xs ih =>
    intro i h
    rw [List.findIdx?_cons] at h
    by_cases hp : p x
    · simp [hp] at h
      simp only [List.length_cons]
      omega
    · rw [if_neg hp, List.findIdx?_succ] at h
      rcases hmap : xs.findIdx? p with _ | j
      · rw [hmap] at h; simp at h
      · rw [hmap] at h
        simp only [Option.map_some', Option.some_inj] at h
        have := ih j hmap
        simp only [List.length_cons]
        omega

theorem findIdxOpt_found {α : Type} (p : α → Bool) :
    ∀ (l : List α) (i : Nat), l.findIdx? p = some i →
      ∃ a, l[i]? = some a ∧ p a = true := by
  intro l
  induction l with
  | nil => intro i h; simp [List.findIdx?_nil] at h
  | cons x xs ih =>
    intro i h
    rw [List.findIdx?_cons] at h
    by_cases hp : p x
    · rw [if_pos hp] at h
      simp only [Option.some_inj] at h
      exact ⟨x, by simp [← h], hp⟩
    · rw [if_neg hp, List.findIdx?_succ] at h
      rcases hmap : xs.findIdx? p with _ | j
      · rw [hmap] at h; simp at h
      · rw [hmap] at h
        simp only [Option.map_some', Option.some_inj] at h
        obtain ⟨a, ha, hpa⟩ := ih j hmap
        exact ⟨a, by simpa [← h] using ha, hpa⟩

theorem findIdxOpt_min {α : Type} (p : α → Bool) :
    ∀ (l : List α) (i : Nat), l.findIdx? p = some i →
      ∀ j, j < i → ∀ a, l[j]? = some a → p a = false := by
  intro l
  induction l with
  | nil => intro i h; simp [List.findIdx?_nil] at h
  | cons x xs ih =>
    intro i h j hj a ha
    rw [List.findIdx?_cons] at h
    by_cases hp : p x
    · rw [if_pos hp] at h
      simp only [Option.some_inj] at h
      omega
    · rw [if_neg hp, List.findIdx?_succ] at h
      rcases hmap : xs.findIdx? p with _ | k
      · rw [hmap] at h; simp at h
      · rw [hmap] at h
        simp only [Option.map_some', Option.some_inj] at h
        cases j with
        | zero =>
          simp only [List.getElem?_cons_zero, Option.some_inj] at ha
          simpa [← ha] using hp
        | succ m =>
          simp only [List.getElem?_cons_succ] at ha
          exact ih k hmap m (by omega) a ha

theorem dotTails_cons (b : Nat) (rest : List Nat) :
    dotTails (b :: rest) = if b = 46 then rest :: dotTails rest else dotTails rest := rfl

theorem dotTails_no_dot (l : List Nat) (h : ∀ x ∈ l, x ≠ 46) : dotTails l = [] := by
  induction l with
  | nil => rfl
  | cons x xs ih =>
    rw [dotTails_cons, if_neg (h x (by simp)), ih (fun y hy => h y (by simp [hy]))]

theorem dotTails_append_no_dot (pre l : List Nat) (h : ∀ x ∈ pre, x ≠ 46) :
    dotTails (pre ++ l) = dotTails l := by
  induction pre with
  | nil => rfl
  | cons x xs ih =>
    simp only [List.cons_append]
    rw [dotTails_cons, if_neg (h x (by simp)), ih (fun y hy => h y (by simp [hy]))]

theorem suffixLoopF_succ_none (fuel : Nat) (name : List Nat)
    (h : List.findIdx? (fun b => b = 46) name = none) :
    suffixLoopF (fuel + 1) name = [] := by
  have hdef : suffixLoopF (fuel + 1) name =
      (match List.findIdx? (fun b => b = 46) name with
       | none => []
       | some i =>
         if i < 1 ∨ i = name.length - 1 then []
         else name.drop (i + 1) :: suffixLoopF fuel (name.drop (i + 1))) := rfl
  rw [hdef, h]

theorem suffixLoopF_succ_some (fuel : Nat) (name : List Nat) (i : Nat)
    (h : List.findIdx? (fun b => b = 46) name = some i) :
    suffixLoopF (fuel + 1) name =
      (if i < 1 ∨ i = name.length - 1 then []
       else name.drop (i + 1) :: suffixLoopF fuel (name.drop (i + 1))) := by
  have hdef : suffixLoopF (fuel + 1) name =
      (match List.findIdx? (fun b => b = 46) name with
       | none => []
       | some i =>
         if i < 1 ∨ i = name.length - 1 then []
         else name.drop (i + 1) :: suffixLoopF fuel (name.drop (i + 1))) := rfl
  rw [hdef, h]

theorem noEmpty_drop (name : List Nat) (i : Nat) (hne : NoEmptyComponent name)
    (hlt : i < name.length) (hdot : name[i]? = some 46) :
    NoEmptyComponent (name.drop (i + 1)) := by
  intro j hj hdotj
  have hj' : name[i + 1 + j]? = some 46 := by
    rw [← List.getElem?_drop]
    exact hdotj
  have hlen : i + 1 + j < name.length := by
    obtain ⟨hh, _⟩ := List.getElem?_eq_some_iff.1 hj'
    exact hh
  obtain ⟨_, hnext, hnodot⟩ := hne (i + 1 + j) hlen hj'
  obtain ⟨_, _, hnodot0⟩ := hne i hlt hdot
  constructor
  · -- the dropped remainder cannot start with a dot
    rcases Nat.eq_zero_or_pos j with hj0 | hj0
    · exfalso
      apply hnodot0
      simpa [hj0] using hj'
    · omega
  refine ⟨?_, ?_⟩
  · simp only [List.length_drop]
    omega
  · rw [List.getElem?_drop]
    have : i + 1 + (j + 1) = i + 1 + j + 1 := by omega
    rw [this]
    exact hnodot

theorem suffixLoopF_eq_dotTails :
    ∀ (fuel : Nat) (name : List Nat), name.length ≤ fuel → NoEmptyComponent name →
      suffixLoopF fuel name = dotTails name := by
  intro fuel
  induction fuel with
  | zero =>
    intro name hlen _
    have : name = [] := by
      cases name with
      | nil => rfl
      | cons x xs => simp at hlen
    subst this
    rfl
  | succ fuel ih =>
    intro name hlen hne
    rcases hidx : List.findIdx? (fun b => b = 46) name with _ | i
    · have hnodot := List.findIdx?_eq_none_iff.1 hidx
      rw [suffixLoopF_succ_none fuel name hidx]
      rw [dotTails_no_dot name (by intro x hx; simpa using hnodot x hx)]
    · have hlt : i < name.length := findIdxOpt_lt_length _ name i hidx
      obtain ⟨a, ha, hpa⟩ := findIdxOpt_found _ name i hidx
      have hdot : name[i]? = some 46 := by
        simp only [decide_eq_true_eq] at hpa
        rw [ha, hpa]
      obtain ⟨h1, h2, _⟩ := hne i hlt hdot
      have hcond : ¬ (i < 1 ∨ i = name.length - 1) := by omega
      rw [suffixLoopF_succ_some fuel name i hidx, if_neg hcond]
      have hrestlen : (name.drop (i + 1)).length ≤ fuel := by
        simp only [List.length_drop]
        omega
      have hrestne : NoEmptyComponent (name.drop (i + 1)) :=
        noEmpty_drop name i hne hlt hdot
      rw [ih (name.drop (i + 1)) hrestlen hrestne]
      -- decompose the name around its first dot for the dotTails side
      have hgetelem : name[i] = 46 := by
        obtain ⟨hh, hv⟩ := List.getElem?_eq_some_iff.1 hdot
        exact hv
      have hsplit : name = name.take i ++ 46 :: name.drop (i + 1) := by
        conv_lhs => rw [← List.take_append_drop i name]
        rw [List.drop_eq_getElem_cons hlt, hgetelem]
      have hpredots : ∀ x ∈ name.take i, x ≠ 46 := by
        intro x hx
        obtain ⟨j, hjm, hjv⟩ := List.mem_take_iff_getElem.1 hx
        have hj : j < i := lt_of_lt_of_le hjm (min_le_left _ _)
        have := findIdxOpt_min (fun b => b = 46) name i hidx j hj x
          (by rw [List.getElem?_eq_getElem (by omega), hjv])
        simpa using this
      conv_rhs => rw [hsplit]
      rw [dotTails_append_no_dot _ _ hpredots, dotTails_cons, if_pos rfl]

/-- Within one window, the loop of `ExtractDomainName` matches the spec's
"every strict tail after each full stop" whenever the name has no empty
dot-separated component. -/
theorem suffixLoop_eq_dotTails (name : List Nat) (h : NoEmptyComponent name) :
    suffixLoop name = dotTails name :=
  suffixLoopF_eq_dotTails name.length name le_rfl h

theorem ExtractDomainName_short (packet : List Nat)
    (h : packet.length < MinNameQuerySize) : ExtractDomainName packet = [] := by
  unfold ExtractDomainName
  rw [if_pos h]

theorem ExtractDomainName_notfound (packet : List Nat)
    (hlen : ¬ packet.length < MinNameQuerySize)
    (hb : bytesIndex [0, 1, 0, 1] (packet.drop 13) = none) :
    ExtractDomainName packet = [] := by
  have hdef : ExtractDomainName packet =
      (if packet.length < MinNameQuerySize then []
       else
         match bytesIndex [0, 1, 0, 1] (packet.drop 13) with
         | none => []
         | some idx =>
           if idx < 1 then []
           else
             let domainName := ((packet.drop 13).take (idx - 1)).map normByte
             if 1024 < domainName.length then []
             else domainName :: suffixLoop domainName) := rfl
  rw [hdef, if_neg hlen, hb]

theorem ExtractDomainName_found (packet : List Nat) (idx : Nat)
    (hlen : ¬ packet.length < MinNameQuerySize)
    (hb : bytesIndex [0, 1, 0, 1] (packet.drop 13) = some idx) :
    ExtractDomainName packet =
      (if idx < 1 then []
       else if 1024 < (((packet.drop 13).take (idx - 1)).map normByte).length then []
       else ((packet.drop 13).take (idx - 1)).map normByte
              :: suffixLoop (((packet.drop 13).take (idx - 1)).map normByte)) := by
  have hdef : ExtractDomainName packet =
      (if packet.length < MinNameQuerySize then []
       else
         match bytesIndex [0, 1, 0, 1] (packet.drop 13) with
         | none => []
         | some idx =>
           if idx < 1 then []
           else
             let domainName := ((packet.drop 13).take (idx - 1)).map normByte
             if 1024 < domainName.length then []
             else domainName :: suffixLoop domainName) := rfl
  rw [hdef, if_neg hlen, hb]

/-- C7, counterexample to the claim as stated: a packet of 17 bytes whose
Type-A Class-IN trailer sits immediately at byte 13.  None of the claim's
empty-result conditions holds (the packet is not shorter than 14 bytes, the
trailer is found, and the reconstructed name — empty here — does not exceed
1024 characters), so the claim demands a non-empty result, yet the source
rejects any trailer found less than one byte past byte 13 and returns the
empty list. -/
theorem c7_trailer_at_13_counterexample :
    14 ≤ (List.replicate 13 170 ++ [0, 1, 0, 1] : List Nat).length ∧
    ((List.replicate 13 170 ++ [0, 1, 0, 1] : List Nat).drop 13).take 4 = [0, 1, 0, 1] ∧
    ((((List.replicate 13 170 ++ [0, 1, 0, 1] : List Nat).drop 13).take 4).map normByte).length
        ≤ 1024 ∧
    ExtractDomainName (List.replicate 13 170 ++ [0, 1, 0, 1]) = [] := by decide

/-- C7 (amended): `ExtractDomainName` returns the empty list when the packet
is shorter than 14 bytes, when no Type-A Class-IN trailer `00 01 00 01` occurs
in `packet[13:]`, when the first such trailer sits immediately at byte 13
(this is the correction: the source demands the trailer start at least one
byte past byte 13), or when the normalised name exceeds 1024 characters;
otherwise, with the first trailer at relative offset `i ≥ 1`, it returns the
`normByte`-normalised name taken from the bytes strictly between byte 13 and
the byte preceding the trailer, followed by its progressively stripped tails —
and whenever the name has no empty dot-separated component those tails are
exactly the strict tails after each full stop (`dotTails`). -/
theorem c7_extract_domain_name (packet : List Nat) :
    (packet.length < 14 → ExtractDomainName packet = []) ∧
    ((∀ j, ((packet.drop 13).drop j).take 4 ≠ [0, 1, 0, 1]) →
        ExtractDomainName packet = []) ∧
    ((packet.drop 13).take 4 = [0, 1, 0, 1] → ExtractDomainName packet = []) ∧
    (∀ i, 1 ≤ i →
      ((packet.drop 13).drop i).take 4 = [0, 1, 0, 1] →
      (∀ j, j < i → ((packet.drop 13).drop j).take 4 ≠ [0, 1, 0, 1]) →
      (1024 < (((packet.drop 13).take (i - 1)).map normByte).length →
          ExtractDomainName packet = []) ∧
      ((((packet.drop 13).take (i - 1)).map normByte).length ≤ 1024 →
          ExtractDomainName packet
            = ((packet.drop 13).take (i - 1)).map normByte
                :: suffixLoop (((packet.drop 13).take (i - 1)).map normByte) ∧
          (NoEmptyComponent (((packet.drop 13).take (i - 1)).map normByte) →
            suffixLoop (((packet.drop 13).take (i - 1)).map normByte)
              = dotTails (((packet.drop 13).take (i - 1)).map normByte)))) := by
  refine ⟨?_, ?_, ?_, ?_⟩
  · intro h
    exact ExtractDomainName_short packet (by simpa [MinNameQuerySize] using h)
  · intro hno
    by_cases hlen : packet.length < MinNameQuerySize
    · exact ExtractDomainName_short packet hlen
    · refine ExtractDomainName_notfound packet hlen ?_
      refine bytesIndex_eq_none_of [0, 1, 0, 1] (packet.drop 13) ?_
      intro j
      simpa using hno j
  · intro h0
    by_cases hlen : packet.length < MinNameQuerySize
    · exact ExtractDomainName_short packet hlen
    · have hb : bytesIndex [0, 1, 0, 1] (packet.drop 13) = some 0 := by
        refine bytesIndex_eq_some_of [0, 1, 0, 1] (packet.drop 13) 0 ?_ ?_
        · simpa using h0
        · intro j hj; omega
      rw [ExtractDomainName_found packet 0 hlen hb, if_pos (by omega)]
  · intro i h1 hfound hmin
    have hlenfound : 13 + i + 4 ≤ packet.length := by
      have h4 := congrArg List.length hfound
      simp [List.length_take, List.length_drop] at h4
      omega
    have hlen : ¬ packet.length < MinNameQuerySize := by
      simp only [MinNameQuerySize]
      omega
    have hb : bytesIndex [0, 1, 0, 1] (packet.drop 13) = some i := by
      refine bytesIndex_eq_some_of [0, 1, 0, 1] (packet.drop 13) i ?_ ?_
      · simpa using hfound
      · intro j hj; simpa using hmin j hj
    constructor
    · intro hbig
      rw [ExtractDomainName_found packet i hlen hb, if_neg (by omega), if_pos hbig]
    · intro hsmall
      refine ⟨?_, fun hne => suffixLoop_eq_dotTails _ hne⟩
      rw [ExtractDomainName_found packet i hlen hb, if_neg (by omega),
        if_neg (by omega)]

/-- Witness for C7: the sample `github.com` A-query from the dnsd test cases.
The trailer sits at relative offset 11, the reconstructed name is
`github.com`, and the returned suffixes are the name and `com`. -/
theorem c7_extract_domain_name_witness :
    ExtractDomainName
        [229, 117, 1, 32, 0, 1, 0, 0, 0, 0, 0, 1, 6, 103, 105, 116, 104, 117, 98, 3,
          99, 111, 109, 0, 0, 1, 0, 1, 0, 0, 41, 16, 0, 0, 0, 0, 0, 0, 0]
      = (([229, 117, 1, 32, 0, 1, 0, 0, 0, 0, 0, 1, 6, 103, 105, 116, 104, 117, 98, 3,
          99, 111, 109, 0, 0, 1, 0, 1, 0, 0, 41, 16, 0, 0, 0, 0, 0, 0,
          0].drop 13).take (11 - 1)).map normByte
          :: suffixLoop ((([229, 117, 1, 32, 0, 1, 0, 0, 0, 0, 0, 1, 6, 103, 105, 116,
              104, 117, 98, 3, 99, 111, 109, 0, 0, 1, 0, 1, 0, 0, 41, 16, 0, 0, 0, 0, 0,
              0, 0].drop 13).take (11 - 1)).map normByte) ∧
    suffixLoop ((([229, 117, 1, 32, 0, 1, 0, 0, 0, 0, 0, 1, 6, 103, 105, 116, 104, 117,
        98, 3, 99, 111, 109, 0, 0, 1, 0, 1, 0, 0, 41, 16, 0, 0, 0, 0, 0, 0,
        0].drop 13).take (11 - 1)).map normByte)
      = dotTails ((([229, 117, 1, 32, 0, 1, 0, 0, 0, 0, 0, 1, 6, 103, 105, 116, 104,
          117, 98, 3, 99, 111, 109, 0, 0, 1, 0, 1, 0, 0, 41, 16, 0, 0, 0, 0, 0, 0,
          0].drop 13).take (11 - 1)).map normByte) :=
  ⟨(((c7_extract_domain_name
        [229, 117, 1, 32, 0, 1, 0, 0, 0, 0, 0, 1, 6, 103, 105, 116, 104, 117, 98, 3,
          99, 111, 109, 0, 0, 1, 0, 1, 0, 0, 41, 16, 0, 0, 0, 0, 0, 0, 0]).2.2.2 11
      (by decide) (by decide) (by decide)).2 (by decide)).1,
    (((c7_extract_domain_name
        [229, 117, 1, 32, 0, 1, 0, 0, 0, 0, 0, 1, 6, 103, 105, 116, 104, 117, 98, 3,
          99, 111, 109, 0, 0, 1, 0, 1, 0, 0, 41, 16, 0, 0, 0, 0, 0, 0, 0]).2.2.2 11
      (by decide) (by decide) (by decide)).2 (by decide)).2 (by decide)⟩

/-! ## DNS black-hole answer synthesis: C5 -/

/-- C5: for every query of at least `MinNameQuerySize` bytes whose extracted
name (or one of its suffixes) is blacklisted, the synthesised reply preserves
the transaction ID (bytes 0-1), carries flags 0x81 0x80 at bytes 2-3, copies
the query from byte 4 on except that the two ANCOUNT bytes are forced to
0x00 0x01 (so the byte at offset 7 equals 1), and ends with the canned
16-byte `BlackHoleAnswer` whose TTL bytes are 0x00 0x00 0x05 0xBA (1466) and
whose RDATA address is 0.0.0.0. -/
theorem c5_blackhole_reply_shape (blackList : List (List Nat)) (q : List Nat)
    (hlen : MinNameQuerySize ≤ q.length)
    (hblack : NamesAreBlackListed blackList (ExtractDomainName q) = true) :
    (RespondWith0 q).length = q.length + 16 ∧
    (RespondWith0 q)[0]? = q[0]? ∧
    (RespondWith0 q)[1]? = q[1]? ∧
    (RespondWith0 q)[2]? = some 129 ∧
    (RespondWith0 q)[3]? = some 128 ∧
    (RespondWith0 q)[6]? = some 0 ∧
    (RespondWith0 q)[7]? = some 1 ∧
    (∀ i, 4 ≤ i → i < q.length → i ≠ 6 → i ≠ 7 → (RespondWith0 q)[i]? = q[i]?) ∧
    (RespondWith0 q).drop q.length = BlackHoleAnswer ∧
    BlackHoleAnswer.length = 16 ∧
    (BlackHoleAnswer.drop 6).take 4 = [0, 0, 5, 186] ∧
    256 * 5 + 186 = 1466 ∧
    BlackHoleAnswer.drop 12 = [0, 0, 0, 0] := by
  have hq : 14 ≤ q.length := by simpa [MinNameQuerySize] using hlen
  have hR : RespondWith0 q
      = q.take 2 ++ StandardResponseNoError ++ (((q.drop 4).set 2 0).set 3 1)
          ++ BlackHoleAnswer := by
    unfold RespondWith0
    rw [if_neg (by simp only [MinNameQuerySize]; omega)]
  have htk2 : (q.take 2).length = 2 := by
    rw [List.length_take]; omega
  have hsr : StandardResponseNoError.length = 2 := rfl
  have hbl : BlackHoleAnswer.length = 16 := rfl
  have hd4 : (q.drop 4).length = q.length - 4 := by
    rw [List.length_drop]
  have hM : (((q.drop 4).set 2 0).set 3 1).length = q.length - 4 := by
    simp [List.length_set, List.length_drop]
  have hL : (q.take 2 ++ StandardResponseNoError
      ++ (((q.drop 4).set 2 0).set 3 1)).length = q.length := by
    simp only [List.length_append, htk2, hsr, hM]
    omega
  have hA : ∀ n, n < 2 → (RespondWith0 q)[n]? = q[n]? := by
    intro n hn
    rw [hR, List.getElem?_append_left (by rw [hL]; omega),
      List.getElem?_append_left (by rw [List.length_append, htk2, hsr]; omega),
      List.getElem?_append_left (by rw [htk2]; omega), List.getElem?_take,
      if_pos hn]
  have hSR : ∀ n, 2 ≤ n → n < 4 →
      (RespondWith0 q)[n]? = StandardResponseNoError[n - 2]? := by
    intro n h2 h4
    rw [hR, List.getElem?_append_left (by rw [hL]; omega),
      List.getElem?_append_left (by rw [List.length_append, htk2, hsr]; omega),
      List.getElem?_append_right (by rw [htk2]; omega), htk2]
  have hMpt : ∀ n, 4 ≤ n → n < q.length →
      (RespondWith0 q)[n]? = (((q.drop 4).set 2 0).set 3 1)[n - 4]? := by
    intro n h4 hlt
    rw [hR, List.getElem?_append_left (by rw [hL]; omega),
      List.getElem?_append_right (by rw [List.length_append, htk2, hsr]; omega)]
    simp only [List.length_append, htk2, hsr]
  refine ⟨?_, hA 0 (by omega), hA 1 (by omega), hSR 2 (by omega) (by omega),
    hSR 3 (by omega) (by omega), ?_, ?_, ?_, ?_, rfl, rfl, rfl, rfl⟩
  · rw [hR]
    simp only [List.length_append, htk2, hsr, hM, hbl]
    omega
  · rw [hMpt 6 (by omega) (by omega)]
    rw [List.getElem?_set_ne (by omega), List.getElem?_set_self (by omega)]
  · rw [hMpt 7 (by omega) (by omega)]
    rw [List.getElem?_set_self (by rw [List.length_set]; omega)]
  · intro i h4 hlt h6 h7
    rw [hMpt i h4 hlt, List.getElem?_set_ne (by omega),
      List.getElem?_set_ne (by omega), List.getElem?_drop]
    congr 1
    omega
  · rw [hR]
    exact List.drop_left' hL

/-- Witness for C5: the sample `github.com` UDP A-query with `github.com`
blacklisted; the reply preserves the transaction ID, flips the flag bytes to
0x81 0x80, forces ANCOUNT to 1 and appends the canned black-hole answer. -/
theorem c5_blackhole_reply_shape_witness :
    MinNameQuerySize ≤ ([229, 117, 1, 32, 0, 1, 0, 0, 0, 0, 0, 1, 6, 103, 105, 116, 104,
        117, 98, 3, 99, 111, 109, 0, 0, 1, 0, 1, 0, 0, 41, 16, 0, 0, 0, 0, 0, 0,
        0] : List Nat).length ∧
    NamesAreBlackListed [[103, 105, 116, 104, 117, 98, 46, 99, 111, 109]]
        (ExtractDomainName [229, 117, 1, 32, 0, 1, 0, 0, 0, 0, 0, 1, 6, 103, 105, 116,
          104, 117, 98, 3, 99, 111, 109, 0, 0, 1, 0, 1, 0, 0, 41, 16, 0, 0, 0, 0, 0, 0,
          0]) = true ∧
    (RespondWith0 [229, 117, 1, 32, 0, 1, 0, 0, 0, 0, 0, 1, 6, 103, 105, 116, 104, 117,
        98, 3, 99, 111, 109, 0, 0, 1, 0, 1, 0, 0, 41, 16, 0, 0, 0, 0, 0, 0, 0]).length
      = ([229, 117, 1, 32, 0, 1, 0, 0, 0, 0, 0, 1, 6, 103, 105, 116, 104, 117, 98, 3,
          99, 111, 109, 0, 0, 1, 0, 1, 0, 0, 41, 16, 0, 0, 0, 0, 0, 0,
          0] : List Nat).length + 16 ∧
    (RespondWith0 [229, 117, 1, 32, 0, 1, 0, 0, 0, 0, 0, 1, 6, 103, 105, 116, 104, 117,
        98, 3, 99, 111, 109, 0, 0, 1, 0, 1, 0, 0, 41, 16, 0, 0, 0, 0, 0, 0, 0])[7]?
      = some 1 :=
  ⟨by decide, by decide,
    (c5_blackhole_reply_shape [[103, 105, 116, 104, 117, 98, 46, 99, 111, 109]]
      [229, 117, 1, 32, 0, 1, 0, 0, 0, 0, 0, 1, 6, 103, 105, 116, 104, 117, 98, 3, 99,
        111, 109, 0, 0, 1, 0, 1, 0, 0, 41, 16, 0, 0, 0, 0, 0, 0, 0]
      (by decide) (by decide)).1,
    (c5_blackhole_reply_shape [[103, 105, 116, 104, 117, 98, 46, 99, 111, 109]]
      [229, 117, 1, 32, 0, 1, 0, 0, 0, 0, 0, 1, 6, 103, 105, 116, 104, 117, 98, 3, 99,
        111, 109, 0, 0, 1, 0, 1, 0, 0, 41, 16, 0, 0, 0, 0, 0, 0, 0]
      (by decide) (by decide)).2.2.2.2.2.2.1⟩

/-! ## Encrypted UDP relay short packets: C6 -/

/-- C6, counterexample to the claim as stated: a 3-byte datagram against a
16-byte IV makes `ReadFrom` fail with `ErrMalformedUDPPacket`, and the relay
loop merely logs the error and continues — it does not send the random decoy
reply the claim (and spec 8) promises; decoys are sent only by the
address-header handling of successfully read packets. -/
theorem c6_short_packet_counterexample :
    ([1, 2, 3] : List Nat).length < 16 ∧
    udpDaemonStep 16 (fun _ c => c) (fun _ => true) false false true [1, 2, 3]
      = RelayReaction.logDrop ∧
    RelayReaction.logDrop ≠ RelayReaction.decoy := by decide

/-- C6 (amended): for every encrypted UDP datagram shorter than the cipher's
IV length, the relay logs the malformed-packet error and drops it without
sending any reply to the client (in particular no decoy reply), regardless of
the cipher, of name resolution and of the rate limiter's verdict. -/
theorem c6_short_packet_drop (ivLength : Nat)
    (decrypt : List Nat → List Nat → List Nat) (resolveOK : List Nat → Bool)
    (admitted : Bool) (raw : List Nat) (hshort : raw.length < ivLength) :
    udpDaemonStep ivLength decrypt resolveOK false false admitted raw
      = RelayReaction.logDrop := by
  unfold udpDaemonStep udpCipherReadFrom
  simp [hshort]

/-- Witness for C6: a 2-byte datagram against an 8-byte IV is dropped. -/
theorem c6_short_packet_drop_witness :
    ([9, 9] : List Nat).length < 8 ∧
    udpDaemonStep 8 (fun _ c => c) (fun _ => true) false false true [9, 9]
      = RelayReaction.logDrop :=
  ⟨by decide, c6_short_packet_drop 8 (fun _ c => c) (fun _ => true) true [9, 9] (by decide)⟩

/-! ## Command processor result-filter error path: C1 -/

/-- C1: evaluation at the failing input.  With no command filters (so the
stale `bridgeErr` of the command-filter phase is nil), a feature `.t` that
succeeds, and a single result filter failing with `filterError 7`, `Process`
returns a result whose error is `none` — not the failing filter's error — while
the command recorded in the result is the captured log content, as the claim
demands. -/
theorem c1_stale_bridge_err_at_failing_input :
    (process probeLintTransform false []
        [ResultFilter.fn (fun r => (some (Err.filterError 7), r))]
        [(['.', 't'], fun c =>
          { command := c, error := none, output := ['o', 'k'], combinedOutput := [] })]
        ⟨10, ['.', 't', ' ', 'h', 'i']⟩).1.error = none ∧
    (none : Option Err) ≠ some (Err.filterError 7) ∧
    (process probeLintTransform false []
        [ResultFilter.fn (fun r => (some (Err.filterError 7), r))]
        [(['.', 't'], fun c =>
          { command := c, error := none, output := ['o', 'k'], combinedOutput := [] })]
        ⟨10, ['.', 't', ' ', 'h', 'i']⟩).1.command
      = ⟨10, ['.', 't', ' ', 'h', 'i']⟩ := by decide

/-! ## Sanity check of the PIN configuration: C4 -/

/-- C4, counterexample to the claim as stated: a configuration whose
`PINAndShortcuts` filter holds the non-empty three-character PIN `abc`
together with one shortcut.  The claim says such a configuration passes the
PIN check, but `IsSaneForInternet` reports the `PIN is too short` finding for
every non-empty PIN shorter than 7 characters, shortcuts or not. -/
theorem c4_short_pin_with_shortcut_counterexample :
    (firstPinFilter
        [CommandFilter.pinAndShortcuts ['a', 'b', 'c'] [(['i'], ['.', 'e'])]]).isSome
      = true ∧
    ((['a', 'b', 'c'] : List Char).length < 7 ∧ ([(['i'], ['.', 'e'])] : List (List Char × List Char)) ≠ []) ∧
    ConfigFinding.pinTooShort ∈
      IsSaneForInternet
        (some [([ '.', 's'], fun c =>
          { command := c, error := none, output := [], combinedOutput := [] })])
        (some [CommandFilter.pinAndShortcuts ['a', 'b', 'c'] [(['i'], ['.', 'e'])]])
        (some [ResultFilter.lintText ⟨false, false, false, false, 35, 0⟩]) := by decide

/-- C4 (amended): `IsSaneForInternet` reports no PIN-related finding exactly
when the command filters are assigned, a `PINAndShortcuts` filter is present,
and its PIN is at least 7 characters long or its PIN is empty with at least
one shortcut defined.  In particular a non-empty PIN shorter than 7
characters draws the `PIN is too short` finding even when shortcuts exist. -/
theorem c4_pin_check_characterisation
    (features : Option (List (List Char × (Command → Result))))
    (commandFilters : Option (List CommandFilter))
    (resultFilters : Option (List ResultFilter)) :
    (∀ f ∈ IsSaneForInternet features commandFilters resultFilters,
        pinRelated f = false)
      ↔ (∃ filterList pin shortcuts, commandFilters = some filterList ∧
          firstPinFilter filterList = some (pin, shortcuts) ∧
          (7 ≤ pin.length ∨ (pin = [] ∧ shortcuts ≠ []))) := by
  have hA : ∀ f ∈ featureFindings features, pinRelated f = false := by
    intro f hf
    unfold featureFindings at hf
    split at hf
    · simp only [List.mem_singleton] at hf
      subst hf; rfl
    · split at hf
      · simp only [List.mem_singleton] at hf
        subst hf; rfl
      · simp at hf
  have hC : ∀ f ∈ lintFindings resultFilters, pinRelated f = false := by
    intro f hf
    unfold lintFindings at hf
    split at hf
    · simp only [List.mem_singleton] at hf
      subst hf; rfl
    · split at hf
      · simp only [List.mem_singleton] at hf
        subst hf; rfl
      · split at hf
        · simp only [List.mem_singleton] at hf
          subst hf; rfl
        · simp at hf
  unfold IsSaneForInternet
  rw [List.forall_mem_append, List.forall_mem_append]
  constructor
  · rintro ⟨⟨_, hB⟩, _⟩
    rcases commandFilters with _ | filterList
    · exact absurd (hB ConfigFinding.commandFiltersNotAssigned (by simp [pinFindings]))
        (by simp [pinRelated])
    · rcases hfp : firstPinFilter filterList with _ | pinsc
      · simp only [pinFindings, hfp] at hB
        exact absurd (hB ConfigFinding.pinFilterMissing (by simp)) (by simp [pinRelated])
      · obtain ⟨pin, shortcuts⟩ := pinsc
        refine ⟨filterList, pin, shortcuts, rfl, hfp, ?_⟩
        simp only [pinFindings, hfp] at hB
        by_cases hempty : pin = [] ∧ shortcuts.length = 0
        · exact absurd (hB ConfigFinding.pinEmptyAndNoShortcut (by simp [hempty]))
            (by simp [pinRelated])
        · by_cases hshort : pin ≠ [] ∧ pin.length < 7
          · exact absurd (hB ConfigFinding.pinTooShort (by simp [hshort]))
              (by simp [pinRelated])
          · by_cases hpin : pin = []
            · refine Or.inr ⟨hpin, ?_⟩
              intro hsc
              exact hempty ⟨hpin, by simp [hsc]⟩
            · refine Or.inl ?_
              rcases not_and_or.1 hshort with h | h
              · exact absurd hpin (by simpa using h)
              · omega
  · rintro ⟨filterList, pin, shortcuts, hcf, hfp, hcond⟩
    subst hcf
    refine ⟨⟨hA, ?_⟩, hC⟩
    simp only [pinFindings, hfp]
    intro f hf
    rw [List.mem_append] at hf
    rcases hcond with hlong | ⟨hpin, hsc⟩
    · have hne : pin ≠ [] := by
        intro h
        rw [h] at hlong
        simp at hlong
      rcases hf with hf | hf
      · rw [if_neg (by simp [hne])] at hf
        simp at hf
      · rw [if_neg (by omega)] at hf
        simp at hf
    · rcases hf with hf | hf
      · rw [if_neg (by simp [hsc, List.length_eq_zero])] at hf
        simp at hf
      · rw [if_neg (by simp [hpin])] at hf
        simp at hf

/-! ## PLT override isolation: C8 -/

/-- C8: the PLT override operates on a copy of the installed `LintText`
configuration, used for that one call only.  First conjunct (frame): on every
path `Process` hands back the processor's installed result filters — and with
them the installed `LintText` instance's fields — unchanged, because the
source writes only the local copy `overrideLintText`.  Second conjunct: under
an active PLT override `.plt P L T <command>` (command filters pass, the
trimmed content carries the PLT magic, the parameters parse, the remainder is
non-empty and matches a feature), the configuration handed to the `LintText`
transform during that call is the installed configuration with
`BeginPosition := P` and `MaxLength := L`, observed through the probing
transform which records exactly those two fields. -/
theorem c8_plt_override_on_copy
    (commandFilters : List CommandFilter) (conf0 : LintTextConf)
    (features : List (List Char × (Command → Result)))
    (cmd cmd1 cmd2 cmd3 cmd5 : Command) (feat : Command → Result)
    (bs ds fs g : List Char) (p l t : Int)
    (h1 : runCommandFilters commandFilters cmd = (cmd1, none))
    (h2 : cmd1.trim = (cmd2, none))
    (h3 : cmd2.findAndRemove prefixCommandPLT = (cmd3, true))
    (h5 : pltMatch cmd3.content = some (bs, ds, fs, g))
    (h6 : goAtoi bs = some p) (h7 : goAtoi ds = some l) (h8 : goAtoi fs = some t)
    (h9 : g ≠ [])
    (h10 : lookupFeature features { cmd3 with timeoutSec := t, content := g }
        = some (feat, cmd5)) :
    (∀ lintTransform emergencyLockDown resultFilters,
      (process lintTransform emergencyLockDown commandFilters resultFilters
          features cmd).2 = resultFilters) ∧
    (process probeLintTransform false commandFilters [ResultFilter.lintText conf0]
        features cmd).1.combinedOutput
      = List.replicate p.toNat 'x' ++ 'y' :: List.replicate l.toNat 'x' := by
  constructor
  · intro lintTransform emergencyLockDown resultFilters
    unfold process
    repeat' split
    all_goals try rfl
    all_goals dsimp only
    all_goals split <;> rfl
  · simp only [process, Bool.false_eq_true, if_false, h1, h2, h3, h5, h6, h7, h8,
      firstLintConf, h9, featurePhase, h10, resultPhase, runResultFilters,
      ResultFilter.transform, probeLintTransform]
    simp

/-- Witness for C8: `.plt 2 5 9 .s echo` with an installed LintText of
`BeginPosition = 0`, `MaxLength = 35`; the probe records begin position 2 and
maximum length 5 — the override values, not the installed ones. -/
theorem c8_plt_override_on_copy_witness :
    pltMatch ['2', ' ', '5', ' ', '9', ' ', '.', 's', ' ', 'e', 'c', 'h', 'o']
      = some (['2'], ['5'], ['9'], [' ', '.', 's', ' ', 'e', 'c', 'h', 'o']) ∧
    (process probeLintTransform false []
        [ResultFilter.lintText ⟨true, false, false, false, 35, 0⟩]
        [(['.', 's'], fun c =>
          { command := c, error := none, output := c.content, combinedOutput := [] })]
        ⟨10, ['.', 'p', 'l', 't', ' ', '2', ' ', '5', ' ', '9', ' ', '.', 's', ' ',
          'e', 'c', 'h', 'o']⟩).1.combinedOutput
      = List.replicate (2 : Int).toNat 'x' ++ 'y' :: List.replicate (5 : Int).toNat 'x' :=
  ⟨by decide,
    (c8_plt_override_on_copy [] ⟨true, false, false, false, 35, 0⟩
      [(['.', 's'], fun c =>
        { command := c, error := none, output := c.content, combinedOutput := [] })]
      ⟨10, ['.', 'p', 'l', 't', ' ', '2', ' ', '5', ' ', '9', ' ', '.', 's', ' ',
        'e', 'c', 'h', 'o']⟩
      ⟨10, ['.', 'p', 'l', 't', ' ', '2', ' ', '5', ' ', '9', ' ', '.', 's', ' ',
        'e', 'c', 'h', 'o']⟩
      ⟨10, ['.', 'p', 'l', 't', ' ', '2', ' ', '5', ' ', '9', ' ', '.', 's', ' ',
        'e', 'c', 'h', 'o']⟩
      ⟨10, ['2', ' ', '5', ' ', '9', ' ', '.', 's', ' ', 'e', 'c', 'h', 'o']⟩
      ⟨9, ['e', 'c', 'h', 'o']⟩
      (fun c => { command := c, error := none, output := c.content, combinedOutput := [] })
      ['2'] ['5'] ['9'] [' ', '.', 's', ' ', 'e', 'c', 'h', 'o'] 2 5 9
      (by rfl) (by rfl) (by rfl) (by decide) (by decide) (by decide) (by decide)
      (by decide) (by rfl)).2⟩

end Laitos
